import Mathlib

/-!
Verification of the detection-to-3D fusion engine of
`yolo_detection/yolo_depth_detector.py` (node class `YOLO_depth`).

The Python floats appearing in the node (depth cells, intrinsics, box
coordinates) are modelled exactly, as rationals extended with the IEEE
special values `inf`, `-inf` and `nan`; the spec itself demands the
formulas "with no rounding", so the exact-rational model is the intended
semantics.  Fallible Python operations (indexing, attribute calls) are
modelled with `Except PyErr`.
-/

namespace ZedCam

/-- Kernel-computable addition on `ℚ` (the library marks the field
operations of `Rat` irreducible, which would block `decide` on concrete
inputs); `ratAdd_eq` proves it agrees with `· + ·`. -/
def ratAdd (a b : ℚ) : ℚ := mkRat (a.num * b.den + b.num * a.den) (a.den * b.den)

theorem ratAdd_eq (a b : ℚ) : ratAdd a b = a + b := (Rat.add_def' a b).symm

/-- Kernel-computable subtraction on `ℚ`; agrees with `· - ·`. -/
def ratSub (a b : ℚ) : ℚ := mkRat (a.num * b.den - b.num * a.den) (a.den * b.den)

theorem ratSub_eq (a b : ℚ) : ratSub a b = a - b := (Rat.sub_def' a b).symm

/-- Kernel-computable multiplication on `ℚ`; agrees with `· * ·`. -/
def ratMul (a b : ℚ) : ℚ := mkRat (a.num * b.num) (a.den * b.den)

theorem ratMul_eq (a b : ℚ) : ratMul a b = a * b := (Rat.mul_eq_mkRat a b).symm

/-- Kernel-computable division on `ℚ`; `ratDiv_eq` proves it agrees with
`· / ·`. -/
def ratDiv (a b : ℚ) : ℚ := Rat.divInt (a.num * b.den) (a.den * b.num)

theorem ratDiv_eq (a b : ℚ) : ratDiv a b = a / b := by
  unfold ratDiv
  rw [Rat.divInt_eq_div]
  have ha : ((a.den : ℚ)) ≠ 0 := by exact_mod_cast a.den_nz
  have hb : ((b.den : ℚ)) ≠ 0 := by exact_mod_cast b.den_nz
  rcases eq_or_ne b.num 0 with h0 | h0
  · have hbz : b = 0 := by rwa [Rat.num_eq_zero] at h0
    subst hbz
    simp [h0]
  · have h0' : ((b.num : ℚ)) ≠ 0 := by exact_mod_cast h0
    conv_rhs => rw [← Rat.num_div_den a, ← Rat.num_div_den b]
    push_cast
    field_simp

/-- A Python / NumPy floating-point value, modelled exactly: a finite
rational, `inf`, `-inf`, or `nan`. -/
inductive RFloat where
  | val (q : ℚ)
  | inf
  | negInf
  | nan
deriving DecidableEq

/-- `np.isnan` -/
def RFloat.isnan : RFloat → Bool
  | .nan => true
  | _ => false

/-- `np.isfinite`: true exactly on finite values (not `nan`, not `±inf`). -/
def RFloat.isfinite : RFloat → Bool
  | .val _ => true
  | _ => false

/-- Python `x <= y` on floats: any comparison with `nan` is `False`. -/
def RFloat.le : RFloat → RFloat → Bool
  | .nan, _ => false
  | _, .nan => false
  | .negInf, _ => true
  | _, .negInf => false
  | _, .inf => true
  | .inf, _ => false
  | .val a, .val b => decide (a ≤ b)

/-- Python `x == y` on floats: `nan` is equal to nothing, `inf == inf`. -/
def RFloat.beq : RFloat → RFloat → Bool
  | .nan, _ => false
  | _, .nan => false
  | .inf, .inf => true
  | .negInf, .negInf => true
  | .val a, .val b => decide (a = b)
  | _, _ => false

/-- IEEE addition (used to model the summation inside `np.mean`). -/
def RFloat.add : RFloat → RFloat → RFloat
  | .nan, _ => .nan
  | _, .nan => .nan
  | .inf, .negInf => .nan
  | .negInf, .inf => .nan
  | .inf, _ => .inf
  | _, .inf => .inf
  | .negInf, _ => .negInf
  | _, .negInf => .negInf
  | .val a, .val b => .val (ratAdd a b)

/-- IEEE multiplication by a finite float `q` (the factors `(u - cx)` and
`(v - cy)` in the source are always finite). -/
def RFloat.mulQ : RFloat → ℚ → RFloat
  | .nan, _ => .nan
  | .inf, q => if 0 < q then .inf else if q < 0 then .negInf else .nan
  | .negInf, q => if 0 < q then .negInf else if q < 0 then .inf else .nan
  | .val a, q => .val (ratMul a q)

/-- IEEE division by a finite float `q` (NumPy semantics: division of a
nonzero value by `0.0` gives `±inf` with a warning, `0.0/0.0` gives `nan`;
no exception is raised). -/
def RFloat.divQ : RFloat → ℚ → RFloat
  | .nan, _ => .nan
  | .inf, q => if 0 < q then .inf else if q < 0 then .negInf else .nan
  | .negInf, q => if 0 < q then .negInf else if q < 0 then .inf else .nan
  | .val a, q =>
      if q = 0 then (if 0 < a then .inf else if a < 0 then .negInf else .nan)
      else .val (ratDiv a q)

/-- A Python runtime error escaping an operation. -/
inductive PyErr where
  | indexError
  | typeError
deriving DecidableEq

instance exceptDecEq {ε α : Type} [DecidableEq ε] [DecidableEq α] :
    DecidableEq (Except ε α) := fun a b =>
  match a, b with
  | .ok x, .ok y =>
      if h : x = y then isTrue (by rw [h]) else
        isFalse (fun hc => h (Except.ok.inj hc))
  | .ok _, .error _ => isFalse (fun hc => Except.noConfusion hc)
  | .error _, .ok _ => isFalse (fun hc => Except.noConfusion hc)
  | .error e, .error f =>
      if h : e = f then isTrue (by rw [h]) else
        isFalse (fun hc => h (Except.error.inj hc))

/-- Resolution of one endpoint of a Python slice `l[a:b]` for a sequence of
length `n`: a negative index counts from the end (clamped below at 0), a
non-negative index is clamped above at `n`. -/
def sliceResolve (n : Nat) (i : Int) : Nat :=
  if i < 0 then ((n : Int) + i).toNat else min i.toNat n

/-- Python / NumPy basic slicing `l[a:b]` (step 1). -/
def pySlice {α : Type} (l : List α) (a b : Int) : List α :=
  (l.take (sliceResolve l.length b)).drop (sliceResolve l.length a)

/-- The positions selected by the slice `[a:b]` on a sequence of length
`n`, as absolute indices. -/
def sliceIndices (n : Nat) (a b : Int) : List Nat :=
  List.range' (sliceResolve n a) (sliceResolve n b - sliceResolve n a)

/-- Python integer indexing `l[i]`: a negative index counts from the end;
out of range raises `IndexError`. -/
def pyGet {α : Type} (l : List α) (i : Int) : Except PyErr α :=
  let j := if i < 0 then (l.length : Int) + i else i
  if h : 0 ≤ j ∧ j < l.length then
    .ok (l.get ⟨j.toNat, by omega⟩)
  else
    .error .indexError

/-- A depth map: `self.depth_image`, a 2-D array of 32-bit float depth
cells, row-major (indexed `[row, col]`). -/
abbrev DepthMap : Type := List (List RFloat)

/-- The flattened cell values selected by
`self.depth_image[y_min:y_max, x_min:x_max]` (NumPy boolean-mask indexing
later flattens in row-major order, which `List.flatten` mirrors). -/
def regionValues (dm : DepthMap) (y_min y_max x_min x_max : Int) : List RFloat :=
  ((pySlice dm y_min y_max).map (fun row => pySlice row x_min x_max)).flatten

/-- The `(row, col)` coordinates of the cells selected by
`self.depth_image[y_min:y_max, x_min:x_max]` on an `h × w` depth map;
`regionValues_eq_cells` proves this is exactly the set of cells the
aggregation reads. -/
def regionCells (h w : Nat) (y_min y_max x_min x_max : Int) : List (Nat × Nat) :=
  (sliceIndices h y_min y_max).flatMap
    (fun r => (sliceIndices w x_min x_max).map (fun c => (r, c)))

/-- Cell lookup used to state lemmas about `regionCells` (total, with
defaults; the lemmas only apply it at in-bounds coordinates). -/
def cellD (dm : DepthMap) (rc : Nat × Nat) : RFloat :=
  (dm.getD rc.1 []).getD rc.2 RFloat.nan

/-- The depth aggregation inlined in `main_timer_callback` (source lines
189-195):
`depth_values = self.depth_image[y_min:y_max, x_min:x_max]`,
`valid_depths = depth_values[np.isfinite(depth_values)]`,
then `np.mean(valid_depths)` (sum divided by count) if `valid_depths.size > 0`
else `float('nan')`. -/
def aggregate (dm : DepthMap) (y_min y_max x_min x_max : Int) : RFloat :=
  let valid_depths := (regionValues dm y_min y_max x_min x_max).filter RFloat.isfinite
  if 0 < valid_depths.length then
    (valid_depths.foldl RFloat.add (RFloat.val 0)).divQ (valid_depths.length : ℚ)
  else RFloat.nan

/-- The ZED left-camera intrinsics held by the node (`self.fx`, `self.fy`,
`self.cx`, `self.cy`); finite scalars by construction. -/
structure Camera where
  fx : ℚ
  fy : ℚ
  cx : ℚ
  cy : ℚ
deriving DecidableEq

/-- `pixel_to_pcd` (source lines 118-132): reads the pixel's own depth
cell `Z = self.depth_image[v, u]`; if `Z <= 0 or Z == np.inf or np.isnan(Z)`
it prints an invalid-depth message and sets `X = Y = np.nan`, otherwise it
computes `X = Z*(u - cx)/fx`, `Y = Z*(v - cy)/fy`; either way it returns
the triple `(X, Y, Z)` with the raw `Z` in third position. -/
def pixel_to_pcd (cam : Camera) (depth_image : DepthMap) (pixel : Int × Int) :
    Except PyErr (RFloat × RFloat × RFloat) := do
  let (u, v) := pixel
  let row ← pyGet depth_image v
  let Z ← pyGet row u
  if Z.le (.val 0) || Z.beq .inf || Z.isnan then
    return (.nan, .nan, Z)
  else
    let X := (Z.mulQ (ratSub (u : ℚ) cam.cx)).divQ cam.fx
    let Y := (Z.mulQ (ratSub (v : ℚ) cam.cy)).divQ cam.fy
    return (X, Y, Z)

/-- One detector box row `[x_min, y_min, x_max, y_max, confidence, class_index]`
from `results[0].boxes.data`, after `.tolist()` (Python floats, exact here). -/
structure BBox where
  x_min : ℚ
  y_min : ℚ
  x_max : ℚ
  y_max : ℚ
  confidence : ℚ
  class_index : ℚ
deriving DecidableEq

/-- Python `int()` on a float: truncation toward zero. -/
def pyInt (q : ℚ) : Int := q.num.tdiv q.den

/-- The 4 corner pixels built in `main_timer_callback` (line 187):
`[(x_min, y_min), (x_min, y_max), (x_max, y_min), (x_max, y_max)]`
after `int()` conversion of the box coordinates. -/
def pixelList (bbox : BBox) : List (Int × Int) :=
  [(pyInt bbox.x_min, pyInt bbox.y_min),
   (pyInt bbox.x_min, pyInt bbox.y_max),
   (pyInt bbox.x_max, pyInt bbox.y_min),
   (pyInt bbox.x_max, pyInt bbox.y_max)]

/-- The data the fusion loop body emits for one detection: the class name
printed with the estimated depth, the mean region depth `depth_value`, and
the printed `point_list` of the 4 back-projected corners. -/
structure Estimate where
  class_name : String
  depth_value : RFloat
  point_list : List (RFloat × RFloat × RFloat)
deriving DecidableEq

/-- The body of the `for bbox in bboxes` loop of `main_timer_callback`
(source lines 184-207) for one detection: integerize the box coordinates,
aggregate the region depth, look up the class name via `results[0].names`,
and back-project each of the 4 corner pixels with `pixel_to_pcd` (which
reads each corner's own depth cell).  A corner pixel outside the depth
map raises `IndexError`, which the callback does not catch. -/
def processBBox (cam : Camera) (names : ℚ → String) (depth_image : DepthMap)
    (bbox : BBox) : Except PyErr Estimate := do
  let x_min := pyInt bbox.x_min
  let x_max := pyInt bbox.x_max
  let y_min := pyInt bbox.y_min
  let y_max := pyInt bbox.y_max
  let depth_value := aggregate depth_image y_min y_max x_min x_max
  let class_name := names bbox.class_index
  let point_list ← (pixelList bbox).mapM (pixel_to_pcd cam depth_image)
  return { class_name := class_name, depth_value := depth_value,
           point_list := point_list }

/-- The fusion pass of `main_timer_callback`: the loop over
`results[0].boxes.data`, one `Estimate` per box, in detector order; the
first uncaught `IndexError` aborts the callback. -/
def fusionPass (cam : Camera) (names : ℚ → String) (depth_image : DepthMap)
    (bboxes : List BBox) : Except PyErr (List Estimate) :=
  bboxes.mapM (processBBox cam names depth_image)

/-- Outcome of one firing of `main_timer_callback`. -/
inductive TickOutcome where
  | waiting
  | ran (ests : Except PyErr (List Estimate))

/-- `main_timer_callback` (source lines 171-218): if
`self.depth_image is not None and self.raw_image is not None` it runs the
detector on the cached raw image and the fusion loop over the resulting
boxes; otherwise it only prints `"Image is None"` and returns.  The check
reads the current cache each tick; the callback keeps no tick-to-tick
state. -/
def main_timer_callback {Img : Type} (cam : Camera) (names : ℚ → String)
    (detector : Img → List BBox) (raw_image : Option Img)
    (depth_image : Option DepthMap) : TickOutcome :=
  match depth_image, raw_image with
  | some dm, some img => .ran (fusionPass cam names dm (detector img))
  | _, _ => .waiting

/-- A NumPy `ndarray` as seen by `image_callback`: the only attribute the
callback touches is `size`, which NumPy defines as an `int` (the total
element count), not a method. -/
structure NdArray where
  size : Nat
deriving DecidableEq

/-- Python semantics of the expression `self.raw_image.size()` at source
line 141: `ndarray.size` is an `int`, and calling an `int` raises
`TypeError` (an `int` object is not callable). -/
def ndarrayCallSize (_a : NdArray) : Except PyErr (Nat × Nat) :=
  .error .typeError

/-- `image_callback` (source lines 136-144).  `conv` is the outcome of the
external `CvBridge().imgmsg_to_cv2` / `cv2.cvtColor` conversion (modelled
as an opaque result, errors as `Except.error`).  On conversion failure the
`except CvBridgeError` clause logs and returns normally; on success the
callback stores the image in `self.raw_image` and then executes
`self.width, self.depth = self.raw_image.size()`, whose `TypeError` is not
a `CvBridgeError` and therefore propagates out of the callback.  Returns
the new cached image together with the callback's exception outcome. -/
def image_callback (raw_image : Option NdArray)
    (conv : Except String NdArray) : Option NdArray × Except PyErr Unit :=
  match conv with
  | .error _ => (raw_image, .ok ())
  | .ok img =>
      match ndarrayCallSize img with
      | .error e => (some img, .error e)
      | .ok _ => (some img, .ok ())

/-! Helper lemmas about the embedding. -/

theorem sliceResolve_le (n : Nat) (i : Int) : sliceResolve n i ≤ n := by
  unfold sliceResolve
  split <;> omega

theorem mem_sliceIndices {n : Nat} {a b : Int} {i : Nat} :
    i ∈ sliceIndices n a b ↔ sliceResolve n a ≤ i ∧ i < sliceResolve n b := by
  unfold sliceIndices
  rw [List.mem_range']
  constructor
  · rintro ⟨j, hj, rfl⟩
    omega
  · intro h
    exact ⟨i - sliceResolve n a, by omega, by omega⟩

/-- The slice `l[a:b]` is the list of `l`'s entries at the positions
`sliceIndices l.length a b`. -/
theorem pySlice_eq_map {α : Type} (l : List α) (d : α) (a b : Int) :
    pySlice l a b = (sliceIndices l.length a b).map (fun i => l.getD i d) := by
  have hb := sliceResolve_le l.length b
  apply List.ext_getElem
  · simp only [pySlice, sliceIndices, List.length_drop, List.length_take,
      List.length_map, List.length_range']
    omega
  · intro i h1 h2
    simp only [pySlice, sliceIndices, List.length_drop, List.length_take,
      List.length_range'] at h1 h2 ⊢
    rw [List.getElem_drop, List.getElem_take, List.getElem_map, List.getElem_range']
    have hlt : sliceResolve l.length a + 1 * i < l.length := by omega
    rw [List.getD_eq_getElem?_getD, List.getElem?_eq_getElem hlt]
    simp

/-- The cell values the aggregation reads are exactly the values at the
coordinates `regionCells` describes (for a rectangular depth map of
width `w`). -/
theorem regionValues_eq_cells (dm : DepthMap) (w : Nat)
    (hw : ∀ row ∈ dm, row.length = w) (a b c d : Int) :
    regionValues dm a b c d = (regionCells dm.length w a b c d).map (cellD dm) := by
  have key : ∀ r ∈ sliceIndices dm.length a b,
      pySlice (dm.getD r []) c d =
        (sliceIndices w c d).map (fun cc => cellD dm (r, cc)) := by
    intro r hr
    have hrlt : r < dm.length :=
      lt_of_lt_of_le (mem_sliceIndices.mp hr).2 (sliceResolve_le _ _)
    have hmem : dm.getD r [] ∈ dm := by
      rw [List.getD_eq_getElem?_getD, List.getElem?_eq_getElem hrlt]
      exact List.getElem_mem hrlt
    have hlen : (dm.getD r []).length = w := hw _ hmem
    rw [pySlice_eq_map (dm.getD r []) RFloat.nan c d, hlen]
    rfl
  unfold regionValues regionCells
  rw [pySlice_eq_map dm [] a b, List.map_map, List.map_flatMap, List.flatMap_def]
  congr 1
  refine List.map_congr_left ?_
  intro r hr
  simp only [Function.comp]
  rw [key r hr, List.map_map]
  rfl

/-- The rational carried by a finite `RFloat` (0 on the special values;
only applied to finite values below). -/
def ratOf : RFloat → ℚ
  | .val q => q
  | _ => 0

theorem foldl_add_val (l : List RFloat) (hfin : ∀ x ∈ l, x.isfinite = true) :
    ∀ q : ℚ, l.foldl RFloat.add (RFloat.val q) = RFloat.val (q + (l.map ratOf).sum) := by
  induction l with
  | nil => intro q; simp
  | cons x xs ih =>
    intro q
    have hx : x.isfinite = true := hfin x (List.mem_cons_self x xs)
    cases x with
    | val a =>
        simp only [List.foldl_cons, RFloat.add, ratAdd_eq, List.map_cons, List.sum_cons]
        rw [ih (fun y hy => hfin y (List.mem_cons_of_mem _ hy))]
        rw [ratOf]
        ring_nf
    | inf => simp [RFloat.isfinite] at hx
    | negInf => simp [RFloat.isfinite] at hx
    | nan => simp [RFloat.isfinite] at hx

/-- When at least one finite cell lies in the region, the aggregation is
the arithmetic mean (sum over count) of the finite cells. -/
theorem aggregate_eq_mean (dm : DepthMap) (a b c d : Int)
    (hne : (regionValues dm a b c d).filter RFloat.isfinite ≠ []) :
    aggregate dm a b c d =
      RFloat.val
        ((((regionValues dm a b c d).filter RFloat.isfinite).map ratOf).sum /
          (((regionValues dm a b c d).filter RFloat.isfinite).length : ℚ)) := by
  unfold aggregate
  set v := (regionValues dm a b c d).filter RFloat.isfinite with hv
  have hlen : 0 < v.length := List.length_pos.mpr hne
  rw [if_pos hlen]
  have hfin : ∀ x ∈ v, x.isfinite = true := by
    intro x hx
    exact (List.mem_filter.mp hx).2
  rw [foldl_add_val v hfin 0, zero_add]
  have hq : ((v.length : ℚ)) ≠ 0 := by
    exact_mod_cast Nat.pos_iff_ne_zero.mp hlen
  simp only [RFloat.divQ]
  rw [if_neg hq, ratDiv_eq]

/-- When no finite cell lies in the region, the aggregation is `nan`. -/
theorem aggregate_eq_nan (dm : DepthMap) (a b c d : Int)
    (hempty : (regionValues dm a b c d).filter RFloat.isfinite = []) :
    aggregate dm a b c d = RFloat.nan := by
  unfold aggregate
  rw [hempty]
  simp

theorem mapM_ok {α β ε : Type} (f : α → Except ε β) :
    ∀ (xs : List α) (ys : List β), xs.mapM f = Except.ok ys →
      ys.length = xs.length ∧ ∀ p ∈ xs.zip ys, f p.1 = Except.ok p.2 := by
  intro xs
  induction xs with
  | nil =>
      intro ys h
      simp only [List.mapM_nil, pure] at h
      cases h
      simp
  | cons x xs ih =>
      intro ys h
      rw [List.mapM_cons] at h
      cases hx : f x with
      | error e =>
          rw [hx] at h
          simp only [bind, Except.bind] at h
          cases h
      | ok y =>
          rw [hx] at h
          cases hxs : xs.mapM f with
          | error e =>
              rw [hxs] at h
              simp only [bind, Except.bind, pure, Except.pure] at h
              cases h
          | ok ys' =>
              rw [hxs] at h
              simp only [bind, Except.bind, pure, Except.pure] at h
              cases h
              obtain ⟨hlen, hall⟩ := ih ys' hxs
              refine ⟨by simp [hlen], ?_⟩
              intro p hp
              rcases List.mem_cons.mp hp with hp1 | hp2
              · subst hp1
                exact hx
              · exact hall p hp2

/-- The third coordinate of any triple `pixel_to_pcd` returns is the
pixel's own raw depth cell `self.depth_image[v, u]`, whichever branch is
taken. -/
theorem pixel_to_pcd_z (cam : Camera) (dm : DepthMap) (u v : Int)
    (X Y Z : RFloat) (h : pixel_to_pcd cam dm (u, v) = .ok (X, Y, Z)) :
    ∃ row, pyGet dm v = .ok row ∧ pyGet row u = .ok Z := by
  unfold pixel_to_pcd at h
  dsimp only at h
  cases hrow : pyGet dm v with
  | error e =>
      rw [hrow] at h
      simp only [bind, Except.bind] at h
      cases h
  | ok row =>
      rw [hrow] at h
      simp only [bind, Except.bind] at h
      cases hz : pyGet row u with
      | error e =>
          rw [hz] at h
          simp only [bind, Except.bind] at h
          cases h
      | ok z =>
          rw [hz] at h
          simp only [bind, Except.bind, pure, Except.pure] at h
          refine ⟨row, rfl, ?_⟩
          split at h <;> (cases h; exact hz)

/-- Whenever both index lookups succeed, `pixel_to_pcd` succeeds (no
exception), whatever the depth value is; the returned triple carries the
raw depth cell in third position. -/
theorem pixel_to_pcd_ok (cam : Camera) (dm : DepthMap) (u v : Int)
    (row : List RFloat) (z : RFloat)
    (hrow : pyGet dm v = .ok row) (hz : pyGet row u = .ok z) :
    ∃ X Y, pixel_to_pcd cam dm (u, v) = .ok (X, Y, z) := by
  unfold pixel_to_pcd
  dsimp only
  rw [hrow]
  simp only [bind, Except.bind]
  rw [hz]
  simp only [bind, Except.bind, pure, Except.pure]
  split
  · exact ⟨.nan, .nan, rfl⟩
  · exact ⟨_, _, rfl⟩

/-- In the valid-depth branch (finite positive cell), `pixel_to_pcd`
computes the pinhole back-projection exactly. -/
theorem pixel_to_pcd_formula (cam : Camera) (dm : DepthMap) (u v : Int)
    (row : List RFloat) (q : ℚ)
    (hrow : pyGet dm v = .ok row) (hz : pyGet row u = .ok (.val q))
    (hq : 0 < q) (hfx : cam.fx ≠ 0) (hfy : cam.fy ≠ 0) :
    pixel_to_pcd cam dm (u, v) =
      .ok (.val (q * ((u : ℚ) - cam.cx) / cam.fx),
           .val (q * ((v : ℚ) - cam.cy) / cam.fy),
           .val q) := by
  have hcond : ¬ (((RFloat.val q).le (.val 0) || (RFloat.val q).beq .inf ||
      (RFloat.val q).isnan) = true) := by
    simp only [RFloat.le, RFloat.beq, RFloat.isnan, Bool.or_eq_true,
      decide_eq_true_eq]
    push_neg
    refine ⟨⟨hq, by simp⟩, by simp⟩
  unfold pixel_to_pcd
  dsimp only
  rw [hrow]
  simp only [bind, Except.bind]
  rw [hz]
  simp only [bind, Except.bind, pure, Except.pure]
  rw [if_neg hcond]
  simp only [RFloat.mulQ, RFloat.divQ]
  rw [ratSub_eq, ratSub_eq, ratMul_eq, ratMul_eq, if_neg hfx, if_neg hfy,
    ratDiv_eq, ratDiv_eq]

/-- In the invalid-depth branch (cell not a positive finite value:
non-positive, infinite or `nan`), `pixel_to_pcd` returns `nan` for X and
Y but passes the raw cell through as the third coordinate. -/
theorem pixel_to_pcd_invalid (cam : Camera) (dm : DepthMap) (u v : Int)
    (row : List RFloat) (Z : RFloat)
    (hrow : pyGet dm v = .ok row) (hz : pyGet row u = .ok Z)
    (hinv : ∀ q : ℚ, Z = .val q → q ≤ 0) :
    pixel_to_pcd cam dm (u, v) = .ok (.nan, .nan, Z) := by
  unfold pixel_to_pcd
  dsimp only
  rw [hrow]
  simp only [bind, Except.bind]
  rw [hz]
  simp only [bind, Except.bind, pure, Except.pure]
  cases Z with
  | val q =>
      have hq0 : q ≤ 0 := hinv q rfl
      have hcond : (((RFloat.val q).le (.val 0) || (RFloat.val q).beq .inf ||
          (RFloat.val q).isnan) = true) := by
        simp only [RFloat.le, Bool.or_eq_true, decide_eq_true_eq]
        exact Or.inl (Or.inl hq0)
      rw [if_pos hcond]
  | inf => rfl
  | negInf => rfl
  | nan => rfl

theorem mapM_ok_of_forall {α β ε : Type} (f : α → Except ε β) :
    ∀ xs : List α, (∀ x ∈ xs, ∃ y, f x = Except.ok y) →
      ∃ ys, xs.mapM f = Except.ok ys := by
  intro xs
  induction xs with
  | nil =>
      intro _
      exact ⟨[], rfl⟩
  | cons x xs ih =>
      intro hall
      obtain ⟨y, hy⟩ := hall x (List.mem_cons_self x xs)
      obtain ⟨ys, hys⟩ := ih (fun z hz => hall z (List.mem_cons_of_mem _ hz))
      refine ⟨y :: ys, ?_⟩
      rw [List.mapM_cons, hy]
      simp only [bind, Except.bind]
      rw [hys]
      simp only [bind, Except.bind, pure, Except.pure]

/-- What a successful run of the loop body guarantees: the emitted corner
points are the `pixel_to_pcd` images of the 4 corner pixels, the class
name comes from the detection's class index, and the emitted depth is the
region aggregation of the integerized box. -/
theorem processBBox_ok_spec (cam : Camera) (names : ℚ → String) (dm : DepthMap)
    (bbox : BBox) (est : Estimate) (h : processBBox cam names dm bbox = .ok est) :
    (pixelList bbox).mapM (pixel_to_pcd cam dm) = .ok est.point_list ∧
    est.class_name = names bbox.class_index ∧
    est.depth_value = aggregate dm (pyInt bbox.y_min) (pyInt bbox.y_max)
      (pyInt bbox.x_min) (pyInt bbox.x_max) := by
  unfold processBBox at h
  dsimp only at h
  cases hm : (pixelList bbox).mapM (pixel_to_pcd cam dm) with
  | error e =>
      rw [hm] at h
      simp only [bind, Except.bind] at h
      cases h
  | ok pl =>
      rw [hm] at h
      simp only [bind, Except.bind, pure, Except.pure] at h
      cases h
      exact ⟨rfl, rfl, rfl⟩

/-- The loop body never fails as long as the 4 corner pixels are readable
from the depth map — whatever the depth values are (valid or not). -/
theorem processBBox_succeeds (cam : Camera) (names : ℚ → String)
    (dm : DepthMap) (bbox : BBox)
    (hcorners : ∀ px ∈ pixelList bbox, ∃ row z,
        pyGet dm px.2 = .ok row ∧ pyGet row px.1 = .ok z) :
    ∃ est, processBBox cam names dm bbox = .ok est := by
  obtain ⟨pls, hpls⟩ : ∃ pls,
      (pixelList bbox).mapM (pixel_to_pcd cam dm) = .ok pls := by
    apply mapM_ok_of_forall
    intro px hpx
    obtain ⟨row, z, h1, h2⟩ := hcorners px hpx
    obtain ⟨X, Y, hxy⟩ := pixel_to_pcd_ok cam dm px.1 px.2 row z h1 h2
    exact ⟨(X, Y, z), hxy⟩
  refine ⟨{ class_name := names bbox.class_index,
            depth_value := aggregate dm (pyInt bbox.y_min) (pyInt bbox.y_max)
              (pyInt bbox.x_min) (pyInt bbox.x_max),
            point_list := pls }, ?_⟩
  unfold processBBox
  dsimp only
  rw [hpls]
  simp only [bind, Except.bind, pure, Except.pure]

/-- A position selected by the slice `[a:b]` is never the position `b`
itself: Python slices are half-open at the upper endpoint. -/
theorem sliceIndices_ne_stop {n : Nat} {a b : Int} {i : Nat}
    (h : i ∈ sliceIndices n a b) : (i : Int) ≠ b := by
  have h2 := (mem_sliceIndices.mp h).2
  unfold sliceResolve at h2
  split at h2 <;> omega

/-- A degenerate slice (equal endpoints) selects nothing. -/
theorem pySlice_self {α : Type} (l : List α) (a : Int) : pySlice l a a = [] := by
  unfold pySlice
  apply List.eq_nil_of_length_eq_zero
  simp only [List.length_drop, List.length_take]
  omega

/-- A degenerate box (equal integerized endpoints on either axis) yields
an empty region, hence `nan` from the aggregation. -/
theorem aggregate_degenerate (dm : DepthMap) (a b c d : Int)
    (hdeg : c = d ∨ a = b) :
    aggregate dm a b c d = RFloat.nan := by
  apply aggregate_eq_nan
  rcases hdeg with rfl | rfl
  · have : regionValues dm a b c c = [] := by
      unfold regionValues
      rw [List.map_congr_left (fun row _ => pySlice_self row c)]
      simp
    rw [this]
    rfl
  · have : regionValues dm a a c d = [] := by
      unfold regionValues
      rw [pySlice_self dm a]
      rfl
    rw [this]
    rfl

/-! Concrete fixtures used by the counterexamples and witnesses. -/

/-- Unit intrinsics (fx = fy = 1, principal point at the origin). -/
def cam1 : Camera := ⟨1, 1, 0, 0⟩

/-- A label map sending every class index to the same name. -/
def names1 : ℚ → String := fun _ => "obj"

/-- A 2 × 2 depth map whose top-left cell (1 m) differs from the other
cells (5 m). -/
def dm1 : DepthMap := [[.val 1, .val 5], [.val 5, .val 5]]

/-- A 2 × 2 depth map holding the sample region 1.0, NaN, 2.0, −1.0. -/
def dm2 : DepthMap := [[.val 1, .nan], [.val 2, .val (-1)]]

/-- A 4 × 4 depth map of constant 1 m cells. -/
def dm4 : DepthMap :=
  [[.val 1, .val 1, .val 1, .val 1], [.val 1, .val 1, .val 1, .val 1],
   [.val 1, .val 1, .val 1, .val 1], [.val 1, .val 1, .val 1, .val 1]]

/-- A unit box over `dm1` with confidence 1. -/
def bboxA : BBox := ⟨0, 0, 1, 1, 1, 0⟩

/-- The same box as `bboxA` but with confidence 0. -/
def bboxB : BBox := ⟨0, 0, 1, 1, 0, 0⟩

/-- A 2 × 3 box over `dm4`. -/
def bboxC : BBox := ⟨0, 0, 2, 3, 1, 0⟩

/-- A degenerate box: `x_min = x_max = 0`. -/
def bboxD : BBox := ⟨0, 0, 0, 5, 1, 0⟩

/-- The estimate the loop body emits for `bboxA` over `dm1`: mean region
depth 1 m, but three corners carry their own 5 m depth cells. -/
def estA : Estimate :=
  ⟨"obj", .val 1, [(.val 0, .val 0, .val 1), (.val 0, .val 5, .val 5),
                   (.val 5, .val 0, .val 5), (.val 5, .val 5, .val 5)]⟩

/-- Intrinsics with fx = fy = 100 and principal point (0, 0). -/
def camC : Camera := ⟨100, 100, 0, 0⟩

/-! Claim theorems. -/

/-- Claim C1, counterexample.  The claim says every corner pixel is
back-projected with the box's `mean_depth`, so all four corner
z-coordinates equal the mean.  On `dm1` with the unit box `bboxA` the
aggregated mean depth is 1 (only the half-open region cell `(0,0)` is
averaged), yet the emitted corner points carry z-coordinates 1, 5, 5, 5 —
each corner's own depth cell — so three corners differ from the mean. -/
theorem C1_counterexample :
    processBBox cam1 names1 dm1 bboxA = .ok estA ∧
    estA.depth_value = .val 1 ∧
    estA.point_list.map (fun p => p.2.2) =
      [.val 1, .val 5, .val 5, .val 5] ∧
    RFloat.val 5 ≠ RFloat.val 1 :=
  ⟨by decide, by decide, by decide, by decide⟩

/-- Claim C1, amended.  In `main_timer_callback` the corner points are
produced by `pixel_to_pcd`, which reads `self.depth_image[v, u]` — the
corner pixel's own depth cell, not the box's `mean_depth`: for every
successfully emitted estimate, the z-coordinate of each corner point is
exactly the raw depth cell at that corner pixel. -/
theorem C1_corner_uses_own_cell (cam : Camera) (names : ℚ → String)
    (dm : DepthMap) (bbox : BBox) (est : Estimate)
    (h : processBBox cam names dm bbox = .ok est) :
    ∀ p ∈ (pixelList bbox).zip est.point_list,
      ∃ row, pyGet dm p.1.2 = .ok row ∧ pyGet row p.1.1 = .ok p.2.2.2 := by
  intro p hp
  have hmap := (processBBox_ok_spec cam names dm bbox est h).1
  have hall := (mapM_ok (pixel_to_pcd cam dm) (pixelList bbox) est.point_list hmap).2
  have hpt := hall p hp
  exact pixel_to_pcd_z cam dm p.1.1 p.1.2 p.2.1 p.2.2.1 p.2.2.2 (by
    have : p.1 = (p.1.1, p.1.2) := rfl
    rw [← this]
    have h2 : p.2 = (p.2.1, p.2.2.1, p.2.2.2) := rfl
    rw [← h2]
    exact hpt)

/-- Claim C1 witness: the bottom-right corner (1, 1) of `bboxA` over
`dm1` carries its own 5 m cell even though the region mean is 1 m. -/
theorem C1_witness :
    ∃ row, pyGet dm1 1 = .ok row ∧ pyGet row 1 = .ok (RFloat.val 5) :=
  C1_corner_uses_own_cell cam1 names1 dm1 bboxA estA (by decide)
    ((1, 1), (.val 5, .val 5, .val 5)) (by decide)

/-- Claim C2, counterexample.  The claim says the valid subset keeps only
finite AND positive cells, so the region 1.0, NaN, 2.0, −1.0 should
average to 1.5.  The code filters with `np.isfinite` only: −1.0 stays in
the subset and the mean is (1 + 2 − 1)/3 = 2/3, not 3/2. -/
theorem C2_counterexample :
    aggregate dm2 0 2 0 2 = .val (mkRat 2 3) ∧
    (mkRat 2 3 : ℚ) = 2 / 3 ∧ (mkRat 2 3 : ℚ) ≠ 3 / 2 :=
  ⟨by decide,
   by rw [Rat.mkRat_eq_divInt, Rat.divInt_eq_div]; norm_num,
   by rw [Rat.mkRat_eq_divInt, Rat.divInt_eq_div]; norm_num⟩

/-- Claim C2, amended.  The valid subset is exactly the finite cells of
the clipped region (non-finite cells are discarded, but non-positive
finite cells are retained), and on a non-empty subset the result is its
arithmetic mean (sum over count). -/
theorem C2_finite_mean (dm : DepthMap) (w : Nat)
    (hw : ∀ row ∈ dm, row.length = w) (a b c d : Int) :
    (∀ x : RFloat, x ∈ (regionValues dm a b c d).filter RFloat.isfinite ↔
        x ∈ regionValues dm a b c d ∧ x.isfinite = true) ∧
    ((regionValues dm a b c d).filter RFloat.isfinite =
      ((regionCells dm.length w a b c d).map (cellD dm)).filter RFloat.isfinite) ∧
    ((regionValues dm a b c d).filter RFloat.isfinite ≠ [] →
      aggregate dm a b c d =
        .val ((((regionValues dm a b c d).filter RFloat.isfinite).map ratOf).sum /
          (((regionValues dm a b c d).filter RFloat.isfinite).length : ℚ))) := by
  refine ⟨?_, ?_, ?_⟩
  · intro x
    exact List.mem_filter
  · rw [regionValues_eq_cells dm w hw a b c d]
  · intro hne
    exact aggregate_eq_mean dm a b c d hne

/-- Claim C2 witness: on the sample region the non-empty finite subset
1.0, 2.0, −1.0 is averaged, giving 2/3. -/
theorem C2_witness :
    aggregate dm2 0 2 0 2 =
      .val ((((regionValues dm2 0 2 0 2).filter RFloat.isfinite).map ratOf).sum /
        (((regionValues dm2 0 2 0 2).filter RFloat.isfinite).length : ℚ)) :=
  (C2_finite_mean dm2 2 (by decide) 0 2 0 2).2.2 (by decide)

/-- Claim C3, counterexample.  The claim says an invalid depth yields a
fully-invalid `Point3D` — none of the three coordinates a finite value.
For the depth cell `Z = 0` the code sets `X = Y = nan` but returns the
raw `Z` unchanged as the third coordinate, which is the finite value 0. -/
theorem C3_counterexample :
    pixel_to_pcd cam1 [[RFloat.val 0]] (0, 0) = .ok (.nan, .nan, .val 0) ∧
    (RFloat.val 0).isfinite = true :=
  ⟨by decide, by decide⟩

/-- Claim C3, amended.  Whenever the depth cell read for pixel `(u, v)`
is not a positive finite value (non-positive, infinite or `nan`),
`pixel_to_pcd` returns `nan` in X and Y and the raw cell value as the
z-coordinate (finite for cells such as 0 or −1), printing a non-fatal
invalid-depth message rather than raising. -/
theorem C3_invalid_depth (cam : Camera) (dm : DepthMap) (u v : Int)
    (row : List RFloat) (Z : RFloat)
    (hrow : pyGet dm v = .ok row) (hz : pyGet row u = .ok Z)
    (hinv : ∀ q : ℚ, Z = .val q → q ≤ 0) :
    pixel_to_pcd cam dm (u, v) = .ok (.nan, .nan, Z) :=
  pixel_to_pcd_invalid cam dm u v row Z hrow hz hinv

/-- Claim C3 witness: the cell −1 triggers the invalid branch and flows
through as the third coordinate. -/
theorem C3_witness :
    pixel_to_pcd cam1 [[RFloat.val (-1)]] (0, 0) =
      .ok (.nan, .nan, .val (-1)) :=
  C3_invalid_depth cam1 [[RFloat.val (-1)]] 0 0 [RFloat.val (-1)]
    (.val (-1)) (by decide) (by decide)
    (by intro q hq; cases hq; decide)

/-- Claim C4, code bug.  `image_callback` guards its body with
`except CvBridgeError` only, but after a successful conversion it runs
`self.width, self.depth = self.raw_image.size()`; `ndarray.size` is an
`int`, so the call raises `TypeError`, which is not a `CvBridgeError` and
escapes the callback: for every successfully converted image the callback
terminates with an uncaught exception (after having cached the image). -/
theorem C4_exception_escapes :
    image_callback none (.ok ⟨1⟩) = (some ⟨1⟩, .error .typeError) := by
  decide

/-- Claim C5, counterexample.  The claim says the aggregation reads only
cells lying inside the requested rectangle (also for rectangles with
negative coordinates).  Python slices interpret negative endpoints
relative to the end of the axis: on a 1 × 10 depth map the rectangle with
`x_min = −5, x_max = −1` selects the cell at column 5, which does not
satisfy −5 ≤ 5 < −1 — a cell outside the requested rectangle is read. -/
theorem C5_counterexample :
    (0, 5) ∈ regionCells 1 10 0 1 (-5) (-1) ∧
    ¬ ((-5 : Int) ≤ (5 : Int) ∧ (5 : Int) < (-1 : Int)) :=
  ⟨by decide, by decide⟩

/-- Claim C5, amended.  Every cell the aggregation reads lies inside the
depth-map bounds (never out of range), and when all four rectangle
coordinates are non-negative the cells read also lie inside the requested
rectangle (clipping); negative coordinates follow Python slice semantics
(relative to the end of the axis) and may select in-bounds cells outside
the requested rectangle. -/
theorem C5_region_bounds (h w : Nat) (a b c d : Int) (r cc : Nat)
    (hmem : (r, cc) ∈ regionCells h w a b c d) :
    r < h ∧ cc < w ∧
      (0 ≤ a → 0 ≤ b → 0 ≤ c → 0 ≤ d →
        a ≤ (r : Int) ∧ (r : Int) < b ∧ c ≤ (cc : Int) ∧ (cc : Int) < d) := by
  unfold regionCells at hmem
  rw [List.mem_flatMap] at hmem
  obtain ⟨r', hr', hmem2⟩ := hmem
  rw [List.mem_map] at hmem2
  obtain ⟨c', hc', heq⟩ := hmem2
  injection heq with e1 e2
  subst e1
  subst e2
  have h1 := mem_sliceIndices.mp hr'
  have h2 := mem_sliceIndices.mp hc'
  have hble := sliceResolve_le h b
  have hdle := sliceResolve_le w d
  unfold sliceResolve at h1 h2 hble hdle
  split_ifs at h1 h2 hble hdle <;>
    exact ⟨by omega, by omega,
      fun ha0 hb0 hc0 hd0 => ⟨by omega, by omega, by omega, by omega⟩⟩

/-- Claim C5 witness: the cell (1, 1) of a box with non-negative
coordinates 0 ≤ row < 3, 0 ≤ col < 2 on a 4 × 4 map is in bounds and in
the rectangle. -/
theorem C5_witness :
    (1 : Nat) < 4 ∧ (1 : Nat) < 4 ∧
      (0 ≤ (0 : Int) → 0 ≤ (3 : Int) → 0 ≤ (0 : Int) → 0 ≤ (2 : Int) →
        (0 : Int) ≤ ((1 : Nat) : Int) ∧ ((1 : Nat) : Int) < 3 ∧
        (0 : Int) ≤ ((1 : Nat) : Int) ∧ ((1 : Nat) : Int) < 2) :=
  C5_region_bounds 4 4 0 3 0 2 1 1 (by decide)

/-- Claim C6, counterexample.  The claim says each emitted estimate
carries the detection's confidence.  The loop body never propagates
`confidence` into anything it emits (prints or accumulates): two
detections differing only in confidence (1 versus 0) produce identical
output, so confidence cannot be carried over. -/
theorem C6_counterexample :
    fusionPass cam1 names1 dm1 [bboxA] = fusionPass cam1 names1 dm1 [bboxB] ∧
    bboxA.confidence ≠ bboxB.confidence :=
  ⟨by decide, by decide⟩

/-- Claim C6, amended.  On a successful pass the fusion loop emits
exactly one estimate per detection, in detector order, with the class
label carried over from the detection's class index; the estimate's depth
is the region aggregation of that detection's box; and a detection is
never dropped for having an invalid region depth — the loop body succeeds
whenever its 4 corner pixels are readable, whatever the depth values. -/
theorem C6_count_order (cam : Camera) (names : ℚ → String) (dm : DepthMap)
    (bboxes : List BBox) (ests : List Estimate)
    (h : fusionPass cam names dm bboxes = .ok ests) :
    ests.length = bboxes.length ∧
    (∀ p ∈ bboxes.zip ests,
        processBBox cam names dm p.1 = .ok p.2 ∧
        p.2.class_name = names p.1.class_index) ∧
    (∀ bbox : BBox,
        (∀ px ∈ pixelList bbox, ∃ row z,
            pyGet dm px.2 = .ok row ∧ pyGet row px.1 = .ok z) →
        ∃ est, processBBox cam names dm bbox = .ok est) := by
  obtain ⟨hlen, hall⟩ := mapM_ok (processBBox cam names dm) bboxes ests h
  refine ⟨hlen, ?_, ?_⟩
  · intro p hp
    have hpb := hall p hp
    exact ⟨hpb, (processBBox_ok_spec cam names dm p.1 p.2 hpb).2.1⟩
  · intro bbox hcorners
    exact processBBox_succeeds cam names dm bbox hcorners

/-- Claim C6 witness: the one-detection pass over `dm1` emits exactly one
estimate whose class label comes from the label map. -/
theorem C6_witness :
    [estA].length = [bboxA].length ∧
    estA.class_name = names1 bboxA.class_index :=
  let h := C6_count_order cam1 names1 dm1 [bboxA] [estA] (by decide)
  ⟨h.1, ((h.2.1 (bboxA, estA) (by decide)).2)⟩

/-- Claim C7.  `main_timer_callback` checks the current cache on every
tick: if either the raw image or the depth map is absent it only reports
waiting (`"Image is None"`), for every detector — so the detector is not
invoked and no estimates are produced; and whenever both are present the
tick runs the detector and the fusion pass, with no dependence on
previous ticks (the callback is a function of the current cache only). -/
theorem C7_tick_gating {Img : Type} (cam : Camera) (names : ℚ → String)
    (detector : Img → List BBox) (raw : Option Img)
    (dm : Option DepthMap) :
    ((raw = none ∨ dm = none) →
      main_timer_callback cam names detector raw dm = .waiting) ∧
    (∀ img d, raw = some img → dm = some d →
      main_timer_callback cam names detector raw dm =
        .ran (fusionPass cam names d (detector img))) := by
  constructor
  · intro habs
    cases raw with
    | none => cases dm <;> rfl
    | some img =>
        cases dm with
        | none => rfl
        | some d => rcases habs with h | h <;> cases h
  · intro img d hraw hdm
    subst hraw
    subst hdm
    rfl

/-- Claim C7 witness: with the depth map absent the tick only waits; with
both streams present again the same callback immediately runs the fusion
pass. -/
theorem C7_witness :
    main_timer_callback cam1 names1 (fun _ : Unit => [bboxA]) (some ()) none =
      .waiting ∧
    main_timer_callback cam1 names1 (fun _ : Unit => [bboxA]) (some ())
      (some dm1) = .ran (fusionPass cam1 names1 dm1 [bboxA]) :=
  ⟨(C7_tick_gating cam1 names1 (fun _ : Unit => [bboxA]) (some ()) none).1
      (Or.inr rfl),
   (C7_tick_gating cam1 names1 (fun _ : Unit => [bboxA]) (some ())
      (some dm1)).2 () dm1 rfl rfl⟩

/-- Claim C8.  For a finite positive depth cell `Z = q` at pixel
`(u, v)`, `pixel_to_pcd` returns exactly
`X = Z·(u − cx)/fx`, `Y = Z·(v − cy)/fy` and z-coordinate `Z`, with no
rounding (the model computes in exact rationals), for intrinsics with
nonzero focal lengths (the data model guarantees positive finite
intrinsics). -/
theorem C8_backprojection (cam : Camera) (dm : DepthMap) (u v : Int)
    (row : List RFloat) (q : ℚ)
    (hrow : pyGet dm v = .ok row) (hz : pyGet row u = .ok (.val q))
    (hq : 0 < q) (hfx : cam.fx ≠ 0) (hfy : cam.fy ≠ 0) :
    pixel_to_pcd cam dm (u, v) =
      .ok (.val (q * ((u : ℚ) - cam.cx) / cam.fx),
           .val (q * ((v : ℚ) - cam.cy) / cam.fy),
           .val q) :=
  pixel_to_pcd_formula cam dm u v row q hrow hz hq hfx hfy

/-- Claim C8 witness: the center pixel (here `(cx, cy) = (0, 0)`) at
depth 1 maps to the optical axis: `(0, 0, 1)`. -/
theorem C8_witness :
    pixel_to_pcd camC [[RFloat.val 1]] (0, 0) =
      .ok (.val 0, .val 0, .val 1) := by
  have h := C8_backprojection camC [[RFloat.val 1]] 0 0 [RFloat.val 1] 1
    (by decide) (by decide) (by decide) (by decide) (by decide)
  simpa [camC] using h

/-- Claim C9, counterexample.  The claim says a region whose cells are
all invalid (in the spec's sense: non-finite or non-positive) yields the
defined invalid value.  A region holding the single cell −1.0 — invalid
per the spec, since −1 ≤ 0 — is kept by the code's finiteness-only
filter, and the aggregation returns −1.0, not `nan`. -/
theorem C9_counterexample :
    aggregate [[RFloat.val (-1)]] 0 1 0 1 = .val (-1) ∧
    RFloat.val (-1) ≠ RFloat.nan ∧ ((-1 : ℚ) ≤ 0) :=
  ⟨by decide, by decide, by decide⟩

/-- Claim C9, amended.  When the region contains no finite cell, the
valid subset is empty and the aggregation returns `nan` — the defined
invalid value, distinct from zero and raised as no error; a region of
all-non-positive finite cells instead returns their mean (see the
counterexample). -/
theorem C9_no_finite_nan (dm : DepthMap) (a b c d : Int)
    (hall : ∀ x ∈ regionValues dm a b c d, x.isfinite = false) :
    aggregate dm a b c d = RFloat.nan ∧ RFloat.nan ≠ RFloat.val 0 := by
  refine ⟨?_, by decide⟩
  apply aggregate_eq_nan
  rw [List.filter_eq_nil_iff]
  intro x hx
  simp [hall x hx]

/-- Claim C9 witness: a region of `nan` and `inf` cells aggregates to
`nan`. -/
theorem C9_witness :
    aggregate [[RFloat.nan, RFloat.inf]] 0 1 0 2 = RFloat.nan ∧
    RFloat.nan ≠ RFloat.val 0 :=
  C9_no_finite_nan [[RFloat.nan, RFloat.inf]] 0 1 0 2 (by decide)

/-- Claim C10.  The aggregation region of a detection box is half-open on
both axes: no cell whose row index equals the integerized `y_max`, or
whose column index equals the integerized `x_max`, is ever read (hence
the three back-projected corner pixels on the bottom or right edge never
contribute to the mean); and a degenerate box with equal integerized
`x`-endpoints or `y`-endpoints yields an empty region and the invalid
mean `nan`. -/
theorem C10_half_open (dm : DepthMap) (w : Nat) (bbox : BBox) :
    (∀ p ∈ regionCells dm.length w (pyInt bbox.y_min) (pyInt bbox.y_max)
        (pyInt bbox.x_min) (pyInt bbox.x_max),
      ((p.1 : Int) ≠ pyInt bbox.y_max ∧ (p.2 : Int) ≠ pyInt bbox.x_max)) ∧
    (pyInt bbox.x_min = pyInt bbox.x_max ∨ pyInt bbox.y_min = pyInt bbox.y_max →
      aggregate dm (pyInt bbox.y_min) (pyInt bbox.y_max) (pyInt bbox.x_min)
        (pyInt bbox.x_max) = RFloat.nan) := by
  constructor
  · intro p hp
    unfold regionCells at hp
    rw [List.mem_flatMap] at hp
    obtain ⟨r', hr', hp2⟩ := hp
    rw [List.mem_map] at hp2
    obtain ⟨c', hc', heq⟩ := hp2
    subst heq
    exact ⟨sliceIndices_ne_stop hr', sliceIndices_ne_stop hc'⟩
  · intro hdeg
    exact aggregate_degenerate dm (pyInt bbox.y_min) (pyInt bbox.y_max)
      (pyInt bbox.x_min) (pyInt bbox.x_max) hdeg

/-- Claim C10 witness: for the 2 × 3 box `bboxC` over a 4 × 4 map the
read cell (1, 1) touches neither the excluded bottom row 3 nor the
excluded right column 2, and the degenerate box `bboxD` aggregates to
`nan`. -/
theorem C10_witness :
    ((((1 : Nat) : Int) ≠ pyInt bboxC.y_max) ∧
      (((1 : Nat) : Int) ≠ pyInt bboxC.x_max)) ∧
    aggregate dm1 (pyInt bboxD.y_min) (pyInt bboxD.y_max)
      (pyInt bboxD.x_min) (pyInt bboxD.x_max) = RFloat.nan :=
  ⟨(C10_half_open dm4 4 bboxC).1 (1, 1) (by decide),
   (C10_half_open dm1 2 bboxD).2 (Or.inl (by decide))⟩

end ZedCam
